import Mathlib

/-!
Verification of the spiral-portrait renderer of `src/App.js`.

The renderer has two parts:
* an image sampler: the source bitmap is letterboxed onto a square working
  buffer and a `sample` closure turns continuous coordinates into a
  gamma/inversion-corrected luminance value;
* a spiral stroke synthesizer (`renderSpiral`): an Archimedean spiral is
  walked in fixed angular steps, a stroke width is derived from the sampled
  luminance at every step, and one continuous canvas path is built and then
  stroked once.

The sampler is embedded generically over a `LinearOrderedField` with a floor
so that it is executable at `ℚ` while the renderer, which needs `π`, `cos`
and `sin`, instantiates it at `ℝ`.  JavaScript numbers are modelled as exact
field elements; `Math.pow (x, gamma)` appears as an abstract function
parameter `powf` (for `gamma = 1` it is `fun l => l`, since `pow (x, 1) = x`).
-/

namespace VinxSpiral

section Sampler

variable {K : Type} [LinearOrderedField K] [FloorRing K]

/-- Source line `const clamp = (v, min, max) => Math.max(min, Math.min(max, v));`. -/
def clamp (v lo hi : K) : K := max lo (min hi v)

/-- Source line `const lerp = (a, b, t) => a + (b - a) * t;`. -/
def lerp (a b t : K) : K := a + (b - a) * t

/-- Pixel index of one coordinate in `sample`:
`Math.floor(clamp(x, 0, size - 1))`. -/
def pixIx (size : ℕ) (x : K) : ℤ := ⌊clamp x 0 ((size : K) - 1)⌋

/-- Flat index of a pixel in the RGBA `ImageData` array:
`const idx = (iy * size + ix) * 4;`. -/
def sampleIdx (size : ℕ) (ix iy : ℤ) : ℤ := (iy * (size : ℤ) + ix) * 4

/-- Flat index read by `sample` at continuous coordinates `(x, y)`. -/
def idxAt (size : ℕ) (x y : K) : ℤ := sampleIdx size (pixIx size x) (pixIx size y)

/-- Raw weighted brightness read from the buffer:
`0.2126 * r + 0.7152 * g + 0.0722 * b` with
`r = data[idx]`, `g = data[idx + 1]`, `b = data[idx + 2]`.
The alpha byte `data[idx + 3]` is never read. -/
def rawSum (data : ℤ → K) (idx : ℤ) : K :=
  0.2126 * data idx + 0.7152 * data (idx + 1) + 0.0722 * data (idx + 2)

/-- The luminance before inversion and gamma: `lum` right after `lum /= 255;`. -/
def rawLum (data : ℤ → K) (idx : ℤ) : K := rawSum data idx / 255

/-- The `sample` closure of `renderSpiral` (src/App.js lines 109-121).
`powf` stands for `(l) => Math.pow(l, gamma)`; `data` is the flat RGBA byte
array of the working buffer (arbitrary contents here; bytes in reality). -/
def sample (powf : K → K) (invert : Bool) (size : ℕ) (data : ℤ → K) (x y : K) : K :=
  let ix := pixIx size x
  let iy := pixIx size y
  let idx := sampleIdx size ix iy
  let lum := rawLum data idx
  let lum2 := if invert then 1 - lum else lum
  clamp (powf lum2) 0 1

/-- The sampling pipeline exactly as the spec words it: luminance
`0.2126R + 0.7152G + 0.0722B` normalized to `[0,1]` by `/255`, then
inversion if `invert` is set, then the gamma power, then the clamp to
`[0,1]`, in that order. -/
def sampleSpecOrder (powf : K → K) (invert : Bool) (size : ℕ) (data : ℤ → K) (x y : K) : K :=
  let idx := idxAt size x y
  let normalized :=
    (0.2126 * data idx + 0.7152 * data (idx + 1) + 0.0722 * data (idx + 2)) / 255
  let inverted := if invert then 1 - normalized else normalized
  clamp (powf inverted) 0 1

/-- Unfolding lemma for `sample` in terms of `idxAt`. -/
lemma sample_eq (powf : K → K) (invert : Bool) (size : ℕ) (data : ℤ → K) (x y : K) :
    sample powf invert size data x y =
      clamp (powf (if invert then 1 - rawLum data (idxAt size x y)
                   else rawLum data (idxAt size x y))) 0 1 := rfl

omit [FloorRing K] in
/-- Monotonicity of `clamp` in its clamped argument. -/
lemma clamp_le_clamp {a b lo hi : K} (h : a ≤ b) : clamp a lo hi ≤ clamp b lo hi :=
  max_le_max le_rfl (min_le_min le_rfl h)

end Sampler

section Renderer

/-- The configuration state read by `renderSpiral`: the React state variables
`turns`, `lineSpacing`, `minWidth`, `maxWidth`, `invert`, `cropToCircle`,
`resolution`, together with `powf`, the function `(l) => Math.pow(l, gamma)`
applying the `gamma` state variable. -/
structure Params where
  turns : ℝ
  lineSpacing : ℝ
  minWidth : ℝ
  maxWidth : ℝ
  invert : Bool
  cropToCircle : Bool
  resolution : ℕ
  powf : ℝ → ℝ

/-- Source line `const b = lineSpacing / (2 * Math.PI);`. -/
noncomputable def bCoef (p : Params) : ℝ := p.lineSpacing / (2 * Real.pi)

/-- Source line `const maxR = size / 2 - maxWidth * 1.5;`. -/
noncomputable def maxR (p : Params) : ℝ := (p.resolution : ℝ) / 2 - p.maxWidth * 1.5

/-- Source line `const maxTheta = Math.min(maxR / b, Math.PI * 2 * turns);`. -/
noncomputable def maxTheta (p : Params) : ℝ := min (maxR p / bCoef p) (Real.pi * 2 * p.turns)

/-- Source line `const dTheta = 0.015;`. -/
noncomputable def dTheta : ℝ := 0.015

/-- Number of iterations of `while (theta < maxTheta)`: the loop runs for
`theta = i * dTheta` exactly while `i * dTheta < maxTheta`
(`theta += dTheta` is exact in real arithmetic), i.e. for every
`i < ⌈maxTheta / dTheta⌉₊` — see `lt_stepCount_iff`. -/
noncomputable def stepCount (p : Params) : ℕ := ⌈maxTheta p / dTheta⌉₊

/-- Loop iteration `i` happens exactly when `i * dTheta < maxTheta`. -/
lemma lt_stepCount_iff (p : Params) (i : ℕ) :
    i < stepCount p ↔ (i : ℝ) * dTheta < maxTheta p := by
  rw [stepCount, Nat.lt_ceil, lt_div_iff₀ (by norm_num [dTheta] : (0 : ℝ) < dTheta)]

/-- Spiral position at iteration `i`:
`const r = b * theta; const x = r * Math.cos(theta); const y = r * Math.sin(theta);`. -/
noncomputable def posAt (p : Params) (i : ℕ) : ℝ × ℝ :=
  let theta := (i : ℝ) * dTheta
  let r := bCoef p * theta
  (r * Real.cos theta, r * Real.sin theta)

/-- Luminance sampled at iteration `i`:
`const lum = sample(x + cx, y + cy);` with `cx = cy = size / 2`. -/
noncomputable def lumAt (p : Params) (data : ℤ → ℝ) (i : ℕ) : ℝ :=
  sample p.powf p.invert p.resolution data
    ((posAt p i).1 + (p.resolution : ℝ) / 2) ((posAt p i).2 + (p.resolution : ℝ) / 2)

/-- Stroke width computed at iteration `i`:
`const shade = 1 - lum; const w = lerp(minWidth, maxWidth, shade);`. -/
noncomputable def widthAt (p : Params) (data : ℤ → ℝ) (i : ℕ) : ℝ :=
  lerp p.minWidth p.maxWidth (1 - lumAt p data i)

/-- Canvas path commands emitted by the loop (`ctx.moveTo` / `ctx.lineTo`). -/
inductive PathCmd : Type
  | moveTo (x y : ℝ)
  | lineTo (x y : ℝ)

/-- The mutable context and loop state touched by the path-building loop:
the accumulated path of the current `beginPath`, the canvas stroke-state
variable `ctx.lineWidth` (initially its canvas default `1`), and the loop
variables `first`, `lastX`, `lastY`, `currentWidth`. -/
structure CtxState where
  path : List PathCmd
  lineWidth : ℝ
  first : Bool
  lastX : ℝ
  lastY : ℝ
  currentWidth : Option ℝ

/-- State right after `ctx.beginPath();`:
`lastX = 0, lastY = 0, first = true, currentWidth = null`, empty path,
default `ctx.lineWidth = 1`. -/
noncomputable def initCtx : CtxState :=
  { path := [], lineWidth := 1, first := true, lastX := 0, lastY := 0, currentWidth := none }

/-- One iteration of the `while (theta < maxTheta)` body at `theta = i * dTheta`:
on the first sample `ctx.moveTo(x, y)` (recording `currentWidth = w`), on every
later sample `ctx.lineWidth = w; ctx.lineTo(x, y)`; afterwards
`lastX = x; lastY = y`. -/
noncomputable def stepBody (p : Params) (data : ℤ → ℝ) (st : CtxState) (i : ℕ) : CtxState :=
  let x := (posAt p i).1
  let y := (posAt p i).2
  let w := widthAt p data i
  if st.first then
    { path := st.path ++ [PathCmd.moveTo x y], lineWidth := st.lineWidth,
      first := false, lastX := x, lastY := y, currentWidth := some w }
  else
    { path := st.path ++ [PathCmd.lineTo x y], lineWidth := w,
      first := st.first, lastX := x, lastY := y, currentWidth := st.currentWidth }

/-- Loop state after the first `n` iterations. -/
noncomputable def loopState (p : Params) (data : ℤ → ℝ) (n : ℕ) : CtxState :=
  (List.range n).foldl (stepBody p data) initCtx

/-- The complete path handed to the single `ctx.stroke()` call. -/
noncomputable def pathCmds (p : Params) (data : ℤ → ℝ) : List PathCmd :=
  (loopState p data (stepCount p)).path

/-- One straight stroked segment of the rendered path, with the stroke width
it is painted at. -/
structure Segment where
  x1 : ℝ
  y1 : ℝ
  x2 : ℝ
  y2 : ℝ
  width : ℝ

/-- End point of a path command (the current point after executing it). -/
def cmdEnd : PathCmd → ℝ × ℝ
  | PathCmd.moveTo x y => (x, y)
  | PathCmd.lineTo x y => (x, y)

/-- Segment painted between two consecutive path commands when the path is
stroked at width `w`: a `lineTo` draws from the previous current point, a
`moveTo` draws nothing. -/
def segmentsBetween (w : ℝ) (c1 c2 : PathCmd) : List Segment :=
  match c2 with
  | PathCmd.moveTo _ _ => []
  | PathCmd.lineTo x2 y2 => [⟨(cmdEnd c1).1, (cmdEnd c1).2, x2, y2, w⟩]

/-- Canvas `ctx.stroke()` semantics: the whole current path is painted with
the single current value of `ctx.lineWidth`. -/
def segmentsOf (w : ℝ) : List PathCmd → List Segment
  | c1 :: c2 :: rest => segmentsBetween w c1 c2 ++ segmentsOf w (c2 :: rest)
  | _ => []

/-- The segments actually painted by the one `ctx.stroke()` call at the end of
the loop: the accumulated path, stroked at the final value of `ctx.lineWidth`. -/
noncomputable def strokedSegments (p : Params) (data : ℤ → ℝ) : List Segment :=
  segmentsOf (loopState p data (stepCount p)).lineWidth (pathCmds p data)

/-- The observable output of one `renderSpiral` run, as far as the drawing is
concerned: the painted segments, plus the circular-clip configuration
(`cropToCircle` flag and clip radius `size / 2 - maxWidth`). -/
noncomputable def render (p : Params) (data : ℤ → ℝ) : List Segment × Bool × ℝ :=
  (strokedSegments p data, p.cropToCircle, (p.resolution : ℝ) / 2 - p.maxWidth)

end Renderer

section RendererLemmas

/-- Unfolding one more loop iteration. -/
lemma loopState_succ (p : Params) (data : ℤ → ℝ) (n : ℕ) :
    loopState p data (n + 1) = stepBody p data (loopState p data n) n := by
  simp [loopState, List.range_succ]

/-- Shape of the loop state: `first` is set exactly until the first iteration
has run, and `ctx.lineWidth` still holds its default `1` until the second
iteration assigns `widthAt 1`, after which it holds the width of the last
sample processed. -/
lemma loopState_spec (p : Params) (data : ℤ → ℝ) (n : ℕ) :
    ((loopState p data n).first = (n == 0))
      ∧ ((loopState p data n).lineWidth =
          if n ≤ 1 then 1 else widthAt p data (n - 1)) := by
  induction n with
  | zero => exact ⟨rfl, rfl⟩
  | succ m ih =>
    obtain ⟨ihf, ihw⟩ := ih
    rw [loopState_succ]
    cases m with
    | zero =>
      have h0 : (loopState p data 0).first = true := rfl
      constructor
      · simp [stepBody, h0]
      · have h1 : (loopState p data 0).lineWidth = 1 := rfl
        simp [stepBody, h0, h1]
    | succ k =>
      have hf : (loopState p data (k + 1)).first = false := by simpa using ihf
      constructor
      · simp [stepBody, hf]
      · rw [stepBody]
        simp only [hf, Bool.false_eq_true, if_false]
        rw [if_neg (by omega)]
        norm_num

/-- Every segment painted by one `stroke()` call carries the same width. -/
lemma segmentsOf_width (w : ℝ) :
    ∀ cmds : List PathCmd, ∀ s ∈ segmentsOf w cmds, s.width = w := by
  intro cmds
  induction cmds with
  | nil => intro s hs; simp [segmentsOf] at hs
  | cons c1 rest ih =>
    cases rest with
    | nil => intro s hs; simp [segmentsOf] at hs
    | cons c2 rest2 =>
      intro s hs
      rw [segmentsOf, List.mem_append] at hs
      rcases hs with h | h
      · cases c2 with
        | moveTo x2 y2 => simp [segmentsBetween] at h
        | lineTo x2 y2 =>
          simp only [segmentsBetween, List.mem_singleton] at h
          rw [h]
      · exact ih s h

/-- The width list of one `stroke()` call is constant. -/
lemma segmentsOf_map_width (w : ℝ) (cmds : List PathCmd) :
    (segmentsOf w cmds).map Segment.width =
      List.replicate (segmentsOf w cmds).length w := by
  have h : ∀ b ∈ (segmentsOf w cmds).map Segment.width, b = w := by
    intro b hb
    obtain ⟨s, hs, rfl⟩ := List.mem_map.mp hb
    exact segmentsOf_width w cmds s hs
  calc (segmentsOf w cmds).map Segment.width
      = List.replicate ((segmentsOf w cmds).map Segment.width).length w :=
        List.eq_replicate_of_mem h
    _ = List.replicate (segmentsOf w cmds).length w := by rw [List.length_map]

/-- With `turns = 0` the angular bound is nonpositive. -/
lemma maxTheta_nonpos_of_turns_zero (p : Params) (h : p.turns = 0) :
    maxTheta p ≤ 0 := by
  simp [maxTheta, h]

/-- With `turns = 0` the loop has zero iterations. -/
lemma stepCount_zero_of_turns_zero (p : Params) (h : p.turns = 0) :
    stepCount p = 0 := by
  rw [stepCount, Nat.ceil_eq_zero]
  rw [div_nonpos_iff]
  exact Or.inr ⟨maxTheta_nonpos_of_turns_zero p h, by norm_num [dTheta]⟩

/-- With `turns = 0` the path handed to `ctx.stroke()` is completely empty. -/
lemma pathCmds_empty_of_turns_zero (p : Params) (data : ℤ → ℝ) (h : p.turns = 0) :
    pathCmds p data = [] := by
  rw [pathCmds, stepCount_zero_of_turns_zero p h]
  rfl

end RendererLemmas

section Prepare

/-- One pixel of the working buffer, four byte channels. -/
structure RGBA where
  r : ℝ
  g : ℝ
  b : ℝ
  a : ℝ

/-- Source line `const scale = Math.min(size / img.width, size / img.height);`. -/
noncomputable def scaleFit (srcW srcH size : ℝ) : ℝ := min (size / srcW) (size / srcH)

/-- Source line `const drawW = img.width * scale;`. -/
noncomputable def drawWOf (srcW srcH size : ℝ) : ℝ := srcW * scaleFit srcW srcH size

/-- Source line `const drawH = img.height * scale;`. -/
noncomputable def drawHOf (srcW srcH size : ℝ) : ℝ := srcH * scaleFit srcW srcH size

/-- Source line `const dx = (size - drawW) / 2;`. -/
noncomputable def dxOf (srcW srcH size : ℝ) : ℝ := (size - drawWOf srcW srcH size) / 2

/-- Source line `const dy = (size - drawH) / 2;`. -/
noncomputable def dyOf (srcW srcH size : ℝ) : ℝ := (size - drawHOf srcW srcH size) / 2

open Classical in
/-- The hidden working buffer after
`hctx.clearRect(0, 0, size, size); hctx.drawImage(img, dx, dy, drawW, drawH);`:
`clearRect` sets every pixel to transparent black `(0, 0, 0, 0)`, and
`drawImage` then overwrites exactly the pixels whose unit square meets the
destination rectangle `[dx, dx + drawW) × [dy, dy + drawH)`; the resampled
values written inside that rectangle are abstracted by `drawn`.  A pixel
`(px, py)` fully outside the rectangle keeps its cleared value. -/
noncomputable def prepare (srcW srcH : ℝ) (size : ℕ) (drawn : ℤ → ℤ → RGBA)
    (px py : ℤ) : RGBA :=
  if (px : ℝ) + 1 ≤ dxOf srcW srcH size
      ∨ dxOf srcW srcH size + drawWOf srcW srcH size ≤ (px : ℝ)
      ∨ (py : ℝ) + 1 ≤ dyOf srcW srcH size
      ∨ dyOf srcW srcH size + drawHOf srcW srcH size ≤ (py : ℝ)
  then ⟨0, 0, 0, 0⟩
  else drawn px py

/-- Row-major RGBA layout of `ImageData.data`: flat byte `i` belongs to pixel
`(⌊i / 4⌋ % size, ⌊i / 4⌋ / size)`, channel `i % 4`. -/
noncomputable def flatten (size : ℕ) (buf : ℤ → ℤ → RGBA) (i : ℤ) : ℝ :=
  let pix := i / 4
  let chan := i % 4
  let px := pix % (size : ℤ)
  let py := pix / (size : ℤ)
  if chan = 0 then (buf px py).r
  else if chan = 1 then (buf px py).g
  else if chan = 2 then (buf px py).b
  else (buf px py).a

/-- The three bytes read at `sampleIdx size ix iy` in the flattened buffer are
the R, G, B channels of pixel `(ix, iy)`. -/
lemma flatten_sampleIdx (size : ℕ) (hsz : 0 < size) (buf : ℤ → ℤ → RGBA)
    (ix iy : ℤ) (h0 : 0 ≤ ix) (h1 : ix < (size : ℤ)) :
    flatten size buf (sampleIdx size ix iy) = (buf ix iy).r
      ∧ flatten size buf (sampleIdx size ix iy + 1) = (buf ix iy).g
      ∧ flatten size buf (sampleIdx size ix iy + 2) = (buf ix iy).b := by
  have hk : ∀ c : ℤ, 0 ≤ c → c < 4 →
      ((iy * (size : ℤ) + ix) * 4 + c) / 4 = iy * (size : ℤ) + ix
        ∧ ((iy * (size : ℤ) + ix) * 4 + c) % 4 = c := by
    intro c hc0 hc1
    omega
  have hpx : (iy * (size : ℤ) + ix) % (size : ℤ) = ix := by
    rw [add_comm, mul_comm iy, Int.add_mul_emod_self_left]
    exact Int.emod_eq_of_lt h0 h1
  have hpy : (iy * (size : ℤ) + ix) / (size : ℤ) = iy := by
    rw [add_comm, mul_comm iy]
    rw [Int.add_mul_ediv_left ix iy (by exact_mod_cast hsz.ne' : (size : ℤ) ≠ 0)]
    rw [Int.ediv_eq_zero_of_lt h0 h1, zero_add]
  refine ⟨?_, ?_, ?_⟩
  · have h := hk 0 (by norm_num) (by norm_num)
    rw [flatten, sampleIdx]
    simp only [add_zero] at h
    rw [h.1, h.2, hpx, hpy]
    norm_num
  · have h := hk 1 (by norm_num) (by norm_num)
    rw [flatten, sampleIdx]
    rw [h.1, h.2, hpx, hpy]
    norm_num
  · have h := hk 2 (by norm_num) (by norm_num)
    rw [flatten, sampleIdx]
    rw [h.1, h.2, hpx, hpy]
    norm_num

/-- Sampling the flattened working buffer at a pixel fully outside the
destination rectangle of `drawImage` reads the cleared transparent-black
pixel, so the pre-inversion luminance there is `0`. -/
lemma rawLum_prepare_outside (srcW srcH : ℝ) (size : ℕ) (hsz : 0 < size)
    (drawn : ℤ → ℤ → RGBA) (ix iy : ℤ) (h0 : 0 ≤ ix) (h1 : ix < (size : ℤ))
    (hout : (ix : ℝ) + 1 ≤ dxOf srcW srcH size
      ∨ dxOf srcW srcH size + drawWOf srcW srcH size ≤ (ix : ℝ)
      ∨ (iy : ℝ) + 1 ≤ dyOf srcW srcH size
      ∨ dyOf srcW srcH size + drawHOf srcW srcH size ≤ (iy : ℝ)) :
    rawLum (flatten size (prepare srcW srcH size drawn)) (sampleIdx size ix iy) = 0 := by
  obtain ⟨hr, hg, hb⟩ := flatten_sampleIdx size hsz (prepare srcW srcH size drawn) ix iy h0 h1
  rw [rawLum, rawSum, hr, hg, hb, prepare, if_pos hout]
  norm_num

end Prepare

section Instances

/-- The app's default control values (the `useState` initialisers), with the
gamma power abstracted as the identity function (the exact shape of
`Math.pow (·, gamma)` is irrelevant to the claims instantiated here). -/
noncomputable def pDefault : Params :=
  { turns := 140, lineSpacing := 3, minWidth := 0.6, maxWidth := 4.2,
    invert := false, cropToCircle := true, resolution := 2048, powf := fun l => l }

/-- Default controls with the turns slider set to `0`. -/
noncomputable def pZeroTurns : Params := { pDefault with turns := 0 }

/-- An all-zero flat pixel buffer. -/
def dataZero : ℤ → ℝ := fun _ => 0

/-- An all-white opaque result of `drawImage` inside the destination rect. -/
def whiteDrawn : ℤ → ℤ → RGBA := fun _ _ => ⟨255, 255, 255, 255⟩

end Instances

section SamplerLemmas

variable {K : Type} [LinearOrderedField K] [FloorRing K]

/-- The pixel index of one clamped-and-floored coordinate always lies in
`[0, size - 1]` when the buffer side is at least `1`. -/
lemma pixIx_bounds (size : ℕ) (hsz : 1 ≤ size) (x : K) :
    0 ≤ pixIx size x ∧ pixIx size x ≤ (size : ℤ) - 1 := by
  have h1K : (1 : K) ≤ (size : K) := by exact_mod_cast hsz
  simp only [pixIx, clamp]
  constructor
  · exact Int.floor_nonneg.mpr (le_max_left 0 _)
  · have hv : max 0 (min ((size : K) - 1) x) ≤ (((size : ℤ) - 1 : ℤ) : K) := by
      push_cast
      exact max_le (by linarith) (min_le_left _ _)
    calc ⌊max 0 (min ((size : K) - 1) x)⌋
        ≤ ⌊(((size : ℤ) - 1 : ℤ) : K)⌋ := Int.floor_le_floor hv
      _ = (size : ℤ) - 1 := Int.floor_intCast _

end SamplerLemmas

section Claims

/-- C1: refuted as stated — this records the code's actual behavior.
`renderSpiral` assigns `ctx.lineWidth = w` before every `lineTo`, but it
builds one single path and calls `ctx.stroke()` exactly once after the loop,
so every painted segment is stroked at the one final value of
`ctx.lineWidth`: the width computed at the last sample (or the default `1`
when the loop runs fewer than two iterations).  The rendered stroke width
therefore does not vary along the path, contrary to the claim that the
segment from sample `i-1` to sample `i` is stroked at width `w(i)`. -/
theorem c1_stroke_width_constant (p : Params) (data : ℤ → ℝ) :
    (strokedSegments p data).map Segment.width =
      List.replicate (strokedSegments p data).length
        (loopState p data (stepCount p)).lineWidth
    ∧ (loopState p data (stepCount p)).lineWidth =
        if stepCount p ≤ 1 then 1 else widthAt p data (stepCount p - 1) :=
  ⟨segmentsOf_map_width _ _, (loopState_spec p data (stepCount p)).2⟩

/-- C2 (amended): `prepare` scales the source uniformly with
`scale = min(resolution/srcW, resolution/srcH)` and centers it on the square
working buffer, but the sampling buffer is cleared to transparent black
rather than filled white, so sampling any letterbox pixel yields luminance
`0` before inversion (the white fill of the code goes to the visible output
canvas only, not to the hidden buffer that `sample` reads). -/
theorem c2_prepare_letterbox (srcW srcH : ℝ) (size : ℕ) (drawn : ℤ → ℤ → RGBA)
    (ix iy : ℤ) (hsz : 0 < size) (h0 : 0 ≤ ix) (h1 : ix < (size : ℤ))
    (hout : (ix : ℝ) + 1 ≤ dxOf srcW srcH size
      ∨ dxOf srcW srcH size + drawWOf srcW srcH size ≤ (ix : ℝ)
      ∨ (iy : ℝ) + 1 ≤ dyOf srcW srcH size
      ∨ dyOf srcW srcH size + drawHOf srcW srcH size ≤ (iy : ℝ)) :
    scaleFit srcW srcH size = min ((size : ℝ) / srcW) ((size : ℝ) / srcH)
    ∧ dxOf srcW srcH size = ((size : ℝ) - srcW * scaleFit srcW srcH size) / 2
    ∧ dyOf srcW srcH size = ((size : ℝ) - srcH * scaleFit srcW srcH size) / 2
    ∧ rawLum (flatten size (prepare srcW srcH size drawn)) (sampleIdx size ix iy) = 0 :=
  ⟨rfl, rfl, rfl, rawLum_prepare_outside srcW srcH size hsz drawn ix iy h0 h1 hout⟩

/-- C2 witness: a 1×2 source letterboxed into a 4×4 buffer has
`scale = 2`, `dx = 1`, and its letterbox pixel `(0,0)` lies fully left of the
destination rectangle, so it samples to pre-inversion luminance `0`. -/
theorem c2_prepare_letterbox_witness :
    (((0 : ℤ) : ℝ) + 1 ≤ dxOf 1 2 4
      ∨ dxOf 1 2 4 + drawWOf 1 2 4 ≤ ((0 : ℤ) : ℝ)
      ∨ ((0 : ℤ) : ℝ) + 1 ≤ dyOf 1 2 4
      ∨ dyOf 1 2 4 + drawHOf 1 2 4 ≤ ((0 : ℤ) : ℝ))
    ∧ rawLum (flatten 4 (prepare 1 2 4 whiteDrawn)) (sampleIdx 4 0 0) = 0 := by
  have hout : ((0 : ℤ) : ℝ) + 1 ≤ dxOf 1 2 4
      ∨ dxOf 1 2 4 + drawWOf 1 2 4 ≤ ((0 : ℤ) : ℝ)
      ∨ ((0 : ℤ) : ℝ) + 1 ≤ dyOf 1 2 4
      ∨ dyOf 1 2 4 + drawHOf 1 2 4 ≤ ((0 : ℤ) : ℝ) := by
    left
    rw [dxOf, drawWOf, scaleFit]
    norm_num [min_def]
  exact ⟨hout,
    (c2_prepare_letterbox 1 2 4 whiteDrawn 0 0 (by norm_num) le_rfl (by norm_num) hout).2.2.2⟩

/-- C2 counterexample: in the same 1×2-into-4×4 letterboxing, the claim says
sampling the letterbox pixel `(0,0)` yields luminance `1.0` before inversion;
the code yields `0`. -/
theorem c2_letterbox_not_white :
    rawLum (flatten 4 (prepare 1 2 4 whiteDrawn)) (sampleIdx 4 0 0) = 0
    ∧ rawLum (flatten 4 (prepare 1 2 4 whiteDrawn)) (sampleIdx 4 0 0) ≠ 1 := by
  have h : rawLum (flatten 4 (prepare 1 2 4 whiteDrawn)) (sampleIdx 4 0 0) = 0 :=
    rawLum_prepare_outside 1 2 4 (by norm_num) whiteDrawn 0 0 le_rfl (by norm_num)
      (Or.inl (by rw [dxOf, drawWOf, scaleFit]; norm_num [min_def]))
  refine ⟨h, ?_⟩
  rw [h]
  norm_num

/-- C3: for every (possibly fractional, possibly out-of-range) coordinate
pair, `sample` returns a value in `[0,1]`, and the pixel indices it reads are
obtained by clamping and flooring each axis independently into
`[0, size - 1]` — never an error or an out-of-bounds read. -/
theorem c3_sample_safe {K : Type} [LinearOrderedField K] [FloorRing K]
    (powf : K → K) (invert : Bool) (size : ℕ) (data : ℤ → K) (x y : K)
    (hsz : 1 ≤ size) :
    0 ≤ sample powf invert size data x y
    ∧ sample powf invert size data x y ≤ 1
    ∧ 0 ≤ pixIx size x ∧ pixIx size x ≤ (size : ℤ) - 1
    ∧ 0 ≤ pixIx size y ∧ pixIx size y ≤ (size : ℤ) - 1 := by
  refine ⟨?_, ?_, (pixIx_bounds size hsz x).1, (pixIx_bounds size hsz x).2,
    (pixIx_bounds size hsz y).1, (pixIx_bounds size hsz y).2⟩
  · rw [sample_eq]
    simp only [clamp]
    exact le_max_left _ _
  · rw [sample_eq]
    simp only [clamp]
    exact max_le zero_le_one (min_le_left _ _)

/-- C3 witness: a 4×4 buffer sampled at the out-of-range point
`(100.25, -7)` stays within `[0,1]` and reads clamped indices. -/
theorem c3_sample_safe_witness :
    1 ≤ 4
    ∧ (0 ≤ sample (fun l => l) false 4 (fun _ => (0 : ℚ)) 100.25 (-7)
      ∧ sample (fun l => l) false 4 (fun _ => (0 : ℚ)) 100.25 (-7) ≤ 1
      ∧ 0 ≤ pixIx 4 (100.25 : ℚ) ∧ pixIx 4 (100.25 : ℚ) ≤ (4 : ℤ) - 1
      ∧ 0 ≤ pixIx 4 (-7 : ℚ) ∧ pixIx 4 (-7 : ℚ) ≤ (4 : ℤ) - 1) :=
  ⟨by norm_num, c3_sample_safe (fun l => l) false 4 (fun _ => 0) 100.25 (-7) (by norm_num)⟩

/-- C4: `sample` computes luminance as the weighted RGB sum normalized by
`/255`, then — in this exact order — applies inversion when `invert` is set,
then the gamma power, then the clamp to `[0,1]`; it coincides with the
pipeline written exactly in the spec's order. -/
theorem c4_sample_pipeline_order {K : Type} [LinearOrderedField K] [FloorRing K]
    (powf : K → K) (invert : Bool) (size : ℕ) (data : ℤ → K) (x y : K) :
    sample powf invert size data x y = sampleSpecOrder powf invert size data x y := rfl

/-- C5: `maxTheta = min (maxR / b) (2π·turns)` with `b = lineSpacing / (2π)`
and `maxR = resolution/2 - maxWidth·1.5`, and for a positive `lineSpacing`
every traversed angle `θ < maxTheta` keeps the radius `b·θ` within
`resolution/2 - maxWidth·1.5`. -/
theorem c5_spiral_radius_bounded (p : Params) (theta : ℝ)
    (hls : 0 < p.lineSpacing) (htheta : theta < maxTheta p) :
    maxTheta p = min (maxR p / bCoef p) (2 * Real.pi * p.turns)
    ∧ bCoef p = p.lineSpacing / (2 * Real.pi)
    ∧ maxR p = (p.resolution : ℝ) / 2 - p.maxWidth * 1.5
    ∧ bCoef p * theta ≤ (p.resolution : ℝ) / 2 - p.maxWidth * 1.5 := by
  have hb : 0 < bCoef p := div_pos hls (by positivity)
  refine ⟨?_, rfl, rfl, ?_⟩
  · rw [maxTheta]
    ring_nf
  · have h1 : theta < maxR p / bCoef p := lt_of_lt_of_le htheta (min_le_left _ _)
    have h2 : theta * bCoef p < maxR p := (lt_div_iff₀ hb).mp h1
    show bCoef p * theta ≤ maxR p
    rw [mul_comm]
    exact le_of_lt h2

/-- C5 witness: the default parameters admit `θ = 0 < maxTheta`, and the
radius bound holds there. -/
theorem c5_spiral_radius_bounded_witness :
    0 < pDefault.lineSpacing ∧ (0 : ℝ) < maxTheta pDefault
    ∧ (maxTheta pDefault = min (maxR pDefault / bCoef pDefault) (2 * Real.pi * pDefault.turns)
      ∧ bCoef pDefault = pDefault.lineSpacing / (2 * Real.pi)
      ∧ maxR pDefault = (pDefault.resolution : ℝ) / 2 - pDefault.maxWidth * 1.5
      ∧ bCoef pDefault * 0 ≤ (pDefault.resolution : ℝ) / 2 - pDefault.maxWidth * 1.5) := by
  have hpi := Real.pi_pos
  have hls : 0 < pDefault.lineSpacing := by norm_num [pDefault]
  have hmr : 0 < maxR pDefault := by
    rw [maxR]
    norm_num [pDefault]
  have hb : 0 < bCoef pDefault := div_pos hls (by positivity)
  have htheta : (0 : ℝ) < maxTheta pDefault := by
    rw [maxTheta, lt_min_iff]
    refine ⟨div_pos hmr hb, ?_⟩
    have ht : pDefault.turns = 140 := rfl
    rw [ht]
    positivity
  exact ⟨hls, htheta, c5_spiral_radius_bounded pDefault 0 hls htheta⟩

/-- C6: the stroke width at a sampled point is
`lerp minWidth maxWidth shade` with `shade = 1 - luminance`; given
`minWidth ≤ maxWidth` it is monotone in the shade, and it hits `minWidth` at
`shade = 0` and `maxWidth` at `shade = 1` exactly. -/
theorem c6_width_monotone (p : Params) (h : p.minWidth ≤ p.maxWidth) :
    (∀ data : ℤ → ℝ, ∀ i : ℕ,
      widthAt p data i = lerp p.minWidth p.maxWidth (1 - lumAt p data i))
    ∧ (∀ s t : ℝ, s ≤ t →
        lerp p.minWidth p.maxWidth s ≤ lerp p.minWidth p.maxWidth t)
    ∧ lerp p.minWidth p.maxWidth 0 = p.minWidth
    ∧ lerp p.minWidth p.maxWidth 1 = p.maxWidth := by
  refine ⟨fun data i => rfl, ?_, by rw [lerp]; ring, by rw [lerp]; ring⟩
  intro s t hst
  rw [lerp, lerp]
  have hm := mul_le_mul_of_nonneg_left hst (sub_nonneg.mpr h)
  linarith

/-- C6 witness: the default widths `0.6 ≤ 4.2` satisfy the hypothesis and
the monotonicity and endpoint identities hold for them. -/
theorem c6_width_monotone_witness :
    pDefault.minWidth ≤ pDefault.maxWidth
    ∧ ((∀ data : ℤ → ℝ, ∀ i : ℕ,
        widthAt pDefault data i
          = lerp pDefault.minWidth pDefault.maxWidth (1 - lumAt pDefault data i))
      ∧ (∀ s t : ℝ, s ≤ t →
          lerp pDefault.minWidth pDefault.maxWidth s
            ≤ lerp pDefault.minWidth pDefault.maxWidth t)
      ∧ lerp pDefault.minWidth pDefault.maxWidth 0 = pDefault.minWidth
      ∧ lerp pDefault.minWidth pDefault.maxWidth 1 = pDefault.maxWidth) :=
  ⟨by norm_num [pDefault], c6_width_monotone pDefault (by norm_num [pDefault])⟩

/-- C7: with the gamma power fixed at `1` (`Math.pow (x, 1) = x`, modelled by
the identity), `sample` is monotone non-decreasing in the raw weighted RGB
sum when `invert = false` and monotone non-increasing in it when
`invert = true`. -/
theorem c7_sample_monotone_in_raw {K : Type} [LinearOrderedField K] [FloorRing K]
    (size : ℕ) (data1 data2 : ℤ → K) (x y : K)
    (h : rawSum data1 (idxAt size x y) ≤ rawSum data2 (idxAt size x y)) :
    sample (fun l => l) false size data1 x y ≤ sample (fun l => l) false size data2 x y
    ∧ sample (fun l => l) true size data2 x y ≤ sample (fun l => l) true size data1 x y := by
  have hlum : rawLum data1 (idxAt size x y) ≤ rawLum data2 (idxAt size x y) := by
    rw [rawLum, rawLum]
    gcongr
  constructor
  · rw [sample_eq, sample_eq]
    simp only [Bool.false_eq_true, if_false]
    exact clamp_le_clamp hlum
  · rw [sample_eq, sample_eq]
    simp only [if_true]
    exact clamp_le_clamp (sub_le_sub_left hlum 1)

/-- C7 witness: an all-zero buffer has a smaller raw sum than an all-`100`
buffer, and the two monotonicity inequalities hold there. -/
theorem c7_sample_monotone_in_raw_witness :
    rawSum (fun _ => (0 : ℚ)) (idxAt 1 (0 : ℚ) 0) ≤ rawSum (fun _ => (100 : ℚ)) (idxAt 1 (0 : ℚ) 0)
    ∧ (sample (fun l : ℚ => l) false 1 (fun _ => (0 : ℚ)) 0 0
        ≤ sample (fun l : ℚ => l) false 1 (fun _ => (100 : ℚ)) 0 0
      ∧ sample (fun l : ℚ => l) true 1 (fun _ => (100 : ℚ)) 0 0
        ≤ sample (fun l : ℚ => l) true 1 (fun _ => (0 : ℚ)) 0 0) := by
  have h : rawSum (fun _ => (0 : ℚ)) (idxAt 1 (0 : ℚ) 0)
      ≤ rawSum (fun _ => (100 : ℚ)) (idxAt 1 (0 : ℚ) 0) := by
    rw [rawSum, rawSum]
    norm_num
  exact ⟨h, c7_sample_monotone_in_raw 1 (fun _ => 0) (fun _ => 100) 0 0 h⟩

/-- C8 (amended): with `turns = 0` the angular bound `maxTheta` is
nonpositive, the loop body never runs, and the constructed path is completely
empty — it does not even contain the starting point, since the first
`moveTo` is only emitted inside the loop; no segment is painted and no error
occurs. -/
theorem c8_turns_zero_empty (p : Params) (data : ℤ → ℝ) (h : p.turns = 0) :
    maxTheta p ≤ 0 ∧ pathCmds p data = [] ∧ strokedSegments p data = [] := by
  refine ⟨maxTheta_nonpos_of_turns_zero p h, pathCmds_empty_of_turns_zero p data h, ?_⟩
  rw [strokedSegments, pathCmds_empty_of_turns_zero p data h]
  rfl

/-- C8 witness: the default parameters with the turns slider at `0` yield the
empty path and no painted segments. -/
theorem c8_turns_zero_empty_witness :
    pZeroTurns.turns = 0
    ∧ (maxTheta pZeroTurns ≤ 0 ∧ pathCmds pZeroTurns dataZero = []
      ∧ strokedSegments pZeroTurns dataZero = []) :=
  ⟨rfl, c8_turns_zero_empty pZeroTurns dataZero rfl⟩

/-- C8 counterexample: with `turns = 0` the claim says the path contains
exactly the starting point (the spiral center, `moveTo (0, 0)` in translated
coordinates); the code's path is empty instead. -/
theorem c8_turns_zero_no_start :
    pathCmds pZeroTurns dataZero = []
    ∧ pathCmds pZeroTurns dataZero ≠ [PathCmd.moveTo 0 0] := by
  have h : pathCmds pZeroTurns dataZero = [] :=
    pathCmds_empty_of_turns_zero pZeroTurns dataZero rfl
  refine ⟨h, ?_⟩
  rw [h]
  exact fun hc => List.noConfusion hc

/-- C9: the render is deterministic — it is a pure function of the
parameters and the source pixel data, with no hidden randomness or time
dependence in the model, so identical inputs give identical output. -/
theorem c9_render_deterministic (p1 p2 : Params) (data1 data2 : ℤ → ℝ)
    (hp : p1 = p2) (hd : ∀ i : ℤ, data1 i = data2 i) :
    render p1 data1 = render p2 data2 := by
  subst hp
  rw [funext hd]

/-- C9 witness: two renders of the default parameters on the all-zero buffer
coincide. -/
theorem c9_render_deterministic_witness :
    pDefault = pDefault ∧ render pDefault dataZero = render pDefault dataZero :=
  ⟨rfl, c9_render_deterministic pDefault pDefault dataZero dataZero rfl (fun _ => rfl)⟩

/-- C10: `sample` depends only on bytes at flat indices that are not
`3 mod 4` — the R, G, B channels — and never on the alpha byte; and a fully
transparent pixel (RGBA all zero, the value `clearRect` leaves in the working
buffer) has pre-inversion luminance `0`. -/
theorem c10_sample_ignores_alpha {K : Type} [LinearOrderedField K] [FloorRing K]
    (powf : K → K) (invert : Bool) (size : ℕ) (data1 data2 : ℤ → K) (x y : K)
    (h : ∀ i : ℤ, i % 4 ≠ 3 → data1 i = data2 i) :
    sample powf invert size data1 x y = sample powf invert size data2 x y
    ∧ rawLum (fun _ => (0 : K)) (idxAt size x y) = 0 := by
  constructor
  · obtain ⟨k, hk⟩ : ∃ k : ℤ, idxAt size x y = k * 4 := ⟨_, rfl⟩
    have e0 : data1 (idxAt size x y) = data2 (idxAt size x y) :=
      h _ (by rw [hk]; omega)
    have e1 : data1 (idxAt size x y + 1) = data2 (idxAt size x y + 1) :=
      h _ (by rw [hk]; omega)
    have e2 : data1 (idxAt size x y + 2) = data2 (idxAt size x y + 2) :=
      h _ (by rw [hk]; omega)
    rw [sample_eq, sample_eq, rawLum, rawLum, rawSum, rawSum, e0, e1, e2]
  · rw [rawLum, rawSum]
    norm_num

/-- C10 witness: a buffer that is zero everywhere and one that additionally
sets every alpha byte to `255` sample identically, and the transparent pixel
has pre-inversion luminance `0`. -/
theorem c10_sample_ignores_alpha_witness :
    (∀ i : ℤ, i % 4 ≠ 3 →
      (fun _ : ℤ => (0 : ℚ)) i = (fun j : ℤ => if j % 4 = 3 then (255 : ℚ) else 0) i)
    ∧ (sample (fun l : ℚ => l) false 4 (fun _ : ℤ => (0 : ℚ)) 0 0
        = sample (fun l : ℚ => l) false 4 (fun j : ℤ => if j % 4 = 3 then (255 : ℚ) else 0) 0 0
      ∧ rawLum (fun _ => (0 : ℚ)) (idxAt 4 (0 : ℚ) 0) = 0) := by
  have h : ∀ i : ℤ, i % 4 ≠ 3 →
      (fun _ : ℤ => (0 : ℚ)) i = (fun j : ℤ => if j % 4 = 3 then (255 : ℚ) else 0) i := by
    intro i hi
    simp [hi]
  exact ⟨h, c10_sample_ignores_alpha (fun l => l) false 4 _ _ 0 0 h⟩

end Claims

end VinxSpiral
